import Mathlib

/-!
Verification of the GHG dashboard's core table-normalisation logic
(`src/ghg_processing/unfccc/`): the category parser `get_category`, the
hierarchy builder `process_hierarchical_data`, the header detector
`detect_header_rows`, the filename parser `extract_year_from_filename`,
and the per-gas pivot of `save_gas_level_parquet`.

Python strings are embedded as `List Char` (`PyStr`), with Python's
string primitives (`strip`, `split`, `startswith`, `in`, `lower`, …)
defined below.  Modelling notes:

* `str.strip()` strips the ASCII whitespace characters; exotic Unicode
  whitespace is not modelled (none of the data or claims involves it).
* `str.isdigit()` on the first character is modelled as ASCII
  `Char.isDigit`; Unicode digit categories are not modelled.
* pandas `NaN` cells are modelled as `none : Option PyStr`.
-/

namespace GHG

/-- A Python string, embedded as its list of characters. -/
abbrev PyStr := List Char

/-- Convenience converter from Lean string literals. -/
def toP (s : String) : PyStr := s.toList

/-- The whitespace set stripped by Python's `str.strip()` (ASCII part). -/
def pyIsSpace (c : Char) : Bool :=
  c = ' ' || c = '\t' || c = '\n' || c = '\r' || c = '\x0b' || c = '\x0c'

/-- Strip characters satisfying `p` from the left (Python `lstrip`). -/
def lstripBy (p : Char → Bool) (s : PyStr) : PyStr := s.dropWhile p

/-- Strip characters satisfying `p` from the right (Python `rstrip`). -/
def rstripBy (p : Char → Bool) (s : PyStr) : PyStr := (s.reverse.dropWhile p).reverse

/-- Python `str.strip()`. -/
def pystrip (s : PyStr) : PyStr := rstripBy pyIsSpace (lstripBy pyIsSpace s)

/-- Python `str.strip('.')`. -/
def pystripDots (s : PyStr) : PyStr := rstripBy (· = '.') (lstripBy (· = '.') s)

/-- Python `str.split(" ", 1)`: the part before the first space, and,
when a space exists, the remainder after it. -/
def pysplit1 : PyStr → PyStr × Option PyStr
  | [] => ([], none)
  | c :: rest =>
    if c = ' ' then ([], some rest)
    else
      let r := pysplit1 rest
      (c :: r.1, r.2)

/-- Python `str.lower()` (per-character). -/
def pylower (s : PyStr) : PyStr := s.map Char.toLower

/-- Python substring membership `needle in haystack`. -/
def containsSub (needle : PyStr) : PyStr → Bool
  | [] => needle.isEmpty
  | c :: t => needle.isPrefixOf (c :: t) || containsSub needle t

/-- Result of `get_category` (`process_hierarchy.py`): the dict with keys
`levels`, `label`, `is_memo`, `is_numbered`.  The function below is total,
so the Python code's freedom from exceptions for arbitrary string input is
modelled by construction. -/
structure Category where
  levels : List PyStr
  label : PyStr
  is_memo : Bool
  is_numbered : Bool
deriving DecidableEq, Repr

/-- The fixed memo-prefix test of `get_category`, on the stripped
string: `category_str.startswith('Memo items:') or ... or
category_str.startswith('Indirect CO2')`. -/
def memoFlag (category_str : PyStr) : Bool :=
  (toP "Memo items:").isPrefixOf category_str ||
  (toP "1.D.").isPrefixOf category_str ||
  (toP "5.F.").isPrefixOf category_str ||
  (toP "Indirect N2O").isPrefixOf category_str ||
  (toP "Indirect CO2").isPrefixOf category_str

/-- The numbering test of `get_category`, on the stripped string:
`category_str and category_str[0].isdigit() and '.' in category_str`. -/
def numberedFlag (category_str : PyStr) : Bool :=
  match category_str with
  | [] => false
  | c :: _ => c.isDigit && category_str.contains '.'

/-- The `split(" ", 1)` step of `get_category`'s numbered branch: with a
space, `(level, label)` are the two parts; with no space, the whole
string serves as both. -/
def splitLevelLabel (category_str : PyStr) : PyStr × PyStr :=
  match (pysplit1 category_str).2 with
  | some rest => ((pysplit1 category_str).1, rest)
  | none => (category_str, category_str)

/-- `get_category` from `src/ghg_processing/unfccc/process_hierarchy.py`.
Parses a category string into hierarchical levels, mirroring the Python
statement by statement (input is the result of Python's `str(...)`). -/
def get_category (category_str0 : PyStr) : Category :=
  -- category_str = str(category_str).strip()
  let category_str := pystrip category_str0
  -- if category_str.startswith('Total'): early return
  if (toP "Total").isPrefixOf category_str then
    { levels := [], label := category_str, is_memo := false, is_numbered := false }
  -- if category_str and category_str[0].isdigit() and '.' in category_str
  else if numberedFlag category_str then
    -- split_parts = category_str.split(" ", 1), then level.strip('.').split(".")
    let ll := splitLevelLabel category_str
    { levels := (pystripDots ll.1).splitOn '.', label := pystrip ll.2,
      is_memo := memoFlag category_str, is_numbered := true }
  else
    { levels := [], label := category_str, is_memo := memoFlag category_str,
      is_numbered := false }

example : get_category (toP "1.A.2.a Manufacturing Industries") =
    { levels := [toP "1", toP "A", toP "2", toP "a"],
      label := toP "Manufacturing Industries", is_memo := false, is_numbered := true } := by
  decide

example : get_category (toP "Total national emissions") =
    { levels := [], label := toP "Total national emissions",
      is_memo := false, is_numbered := false } := by decide

example : get_category (toP "1 Energy") =
    { levels := [], label := toP "1 Energy", is_memo := false, is_numbered := false } := by
  decide

example : (get_category (toP "1.D.1 International aviation")).is_memo = true := by decide
example : (get_category (toP "1.D.1 International aviation")).is_numbered = true := by decide

/-- The discrete `Level` classification assigned by
`process_hierarchical_data` to each row. -/
inductive Level where
  | Total
  | Sector
  | Subsector
  | SubSubsector
  | SubSubSubsector
  | Level5
  | Level6
  | Level7
  | Level8
  | Unknown
deriving DecidableEq, Repr

/-- Truthiness of the depth column at index `i` built from a row's
`levels`: the Python cell is `p['levels'][i] if i < len(p['levels'])
else None`, and a cell is truthy iff it is a non-empty string. -/
def truthyCol (levels : List PyStr) (i : Nat) : Bool :=
  match levels[i]? with
  | some s => !s.isEmpty
  | none => false

/-- The `Level` classification chain of `process_hierarchical_data`
(`for i, row in df.iterrows(): ...`), applied to one row's `Label` and
`levels`.  The chain inspects only the eight named depth columns
`Sector … Level_8`, which always exist; columns past depth 8, when
generated, are never consulted. -/
def classify (lab : PyStr) (levels : List PyStr) : Level :=
  if (toP "Total").isPrefixOf lab then .Total
  else if truthyCol levels 0 && !truthyCol levels 1 then .Sector
  else if truthyCol levels 1 && !truthyCol levels 2 then .Subsector
  else if truthyCol levels 2 && !truthyCol levels 3 then .SubSubsector
  else if truthyCol levels 3 && !truthyCol levels 4 then .SubSubSubsector
  else if truthyCol levels 4 && !truthyCol levels 5 then .Level5
  else if truthyCol levels 5 && !truthyCol levels 6 then .Level6
  else if truthyCol levels 6 && !truthyCol levels 7 then .Level7
  else if truthyCol levels 7 then .Level8
  else .Unknown

/-- The sequential context-propagation pass of
`process_hierarchical_data`: `current_context` starts as `ctx`; a parsed
row that is numbered with a non-empty path replaces the context by its
path; a row that is non-numbered, whose label does not start with
`Total`, and that is not a memo item receives the synthetic path
`current_context + ['child']` (or `['1']` when the context is empty).
All other rows pass through unchanged. -/
def contextPass (ctx : List PyStr) : List Category → List Category
  | [] => []
  | p :: rest =>
    if p.is_numbered && !p.levels.isEmpty then
      p :: contextPass p.levels rest
    else if !p.is_numbered && !((toP "Total").isPrefixOf p.label) && !p.is_memo then
      let p2 : Category :=
        { p with levels := if ctx.isEmpty then [toP "1"] else ctx ++ [toP "child"] }
      p2 :: contextPass ctx rest
    else
      p :: contextPass ctx rest

/-- The value of `current_context` after the propagation pass has
consumed a list of parsed rows, starting from `ctx`. -/
def ctxAfter (ctx : List PyStr) : List Category → List PyStr
  | [] => ctx
  | p :: rest =>
    if p.is_numbered && !p.levels.isEmpty then ctxAfter p.levels rest
    else ctxAfter ctx rest

/-- One row of the output of `process_hierarchical_data`: the parsed
fields the partitioning consults (`Label`, `Is_Memo`, the depth columns
represented by `levels`) plus the derived `Level` column.  The
untouched data columns of the original row are carried by position and
do not influence partitioning, so they are not represented. -/
structure ProcessedRow where
  levels : List PyStr
  label : PyStr
  is_memo : Bool
  level : Level
deriving DecidableEq, Repr

/-- The ten DataFrames returned by `process_hierarchical_data`. -/
structure Partitions where
  total_df : List ProcessedRow
  sector_df : List ProcessedRow
  subsector_df : List ProcessedRow
  sub_subsector_df : List ProcessedRow
  sub_sub_subsector_df : List ProcessedRow
  level_5_df : List ProcessedRow
  level_6_df : List ProcessedRow
  level_7_df : List ProcessedRow
  level_8_df : List ProcessedRow
  memo_df : List ProcessedRow
deriving Repr

/-- `process_hierarchical_data` from
`src/ghg_processing/unfccc/process_hierarchy.py`, applied to the
category column of the input table (the function first locates that
column by substring match and raises if it is absent; the claims treated
here presuppose the column is present, so the model takes the column's
values directly).  Mirrors the Python:

* parse every category string with `get_category`;
* run the sequential context pass over the parsed rows;
* `max_len = max(len(p['levels']) for p in parsed if p['levels'])` —
  when every parsed row has an empty path this `max` call raises
  `ValueError: max() arg is an empty sequence`, modelled as `.error`;
* classify each row into a `Level` via the depth columns and `Label`;
* split off memo rows, then split the remaining rows by `Level`.

Rows whose `Level` is `Unknown` and that are not memo items appear in
none of the ten returned DataFrames. -/
def parsedRows (rows : List PyStr) : List Category :=
  contextPass [] (rows.map get_category)

/-- The rows with their derived `Level` column, after parsing and
context propagation. -/
def processedRows (rows : List PyStr) : List ProcessedRow :=
  (parsedRows rows).map (fun p =>
    { levels := p.levels, label := p.label, is_memo := p.is_memo,
      level := classify p.label p.levels })

/-- `main_df = df[~df['Is_Memo']]`. -/
def mainRows (rows : List PyStr) : List ProcessedRow :=
  (processedRows rows).filter (fun r => !r.is_memo)

/-- The ten DataFrames built at the end of `process_hierarchical_data`. -/
def buildPartitions (rows : List PyStr) : Partitions :=
  let main := mainRows rows
  { total_df := main.filter (fun r => r.level = .Total)
    sector_df := main.filter (fun r => r.level = .Sector)
    subsector_df := main.filter (fun r => r.level = .Subsector)
    sub_subsector_df := main.filter (fun r => r.level = .SubSubsector)
    sub_sub_subsector_df := main.filter (fun r => r.level = .SubSubSubsector)
    level_5_df := main.filter (fun r => r.level = .Level5)
    level_6_df := main.filter (fun r => r.level = .Level6)
    level_7_df := main.filter (fun r => r.level = .Level7)
    level_8_df := main.filter (fun r => r.level = .Level8)
    memo_df := (processedRows rows).filter (fun r => r.is_memo) }

def processHierarchicalData (rows : List PyStr) : Except PyStr Partitions :=
  -- max_len = max(len(p['levels']) for p in parsed if p['levels']):
  -- ValueError when the generator is empty (max_len itself only sizes
  -- the generated depth columns and does not affect the partitioning)
  let lens := ((parsedRows rows).filter (fun p => !p.levels.isEmpty)).map
    (fun p => p.levels.length)
  match lens with
  | [] => .error (toP "max() arg is an empty sequence")
  | _ :: _ => .ok (buildPartitions rows)

/-- The five category strings of the spec's end-to-end example. -/
def exampleRows : List PyStr :=
  [toP "Total national emissions", toP "1 Energy", toP "1.A Fuel combustion",
   toP "1.A.1 Energy industries", toP "Memo items: International bunkers"]

example : processHierarchicalData exampleRows =
    .ok
      { total_df := [{ levels := [], label := toP "Total national emissions",
                       is_memo := false, level := .Total }]
        sector_df := [{ levels := [toP "1"], label := toP "1 Energy",
                        is_memo := false, level := .Sector }]
        subsector_df := [{ levels := [toP "1", toP "A"], label := toP "Fuel combustion",
                           is_memo := false, level := .Subsector }]
        sub_subsector_df := [{ levels := [toP "1", toP "A", toP "1"],
                               label := toP "Energy industries",
                               is_memo := false, level := .SubSubsector }]
        sub_sub_subsector_df := []
        level_5_df := []
        level_6_df := []
        level_7_df := []
        level_8_df := []
        memo_df := [{ levels := [], label := toP "Memo items: International bunkers",
                      is_memo := true, level := .Unknown }] } := by
  rfl

example : (processHierarchicalData [toP "Memo items: International bunkers"]).isOk = false := by
  rfl

example : ctxAfter [] [get_category (toP "1.D.1 International aviation")] =
    [toP "1", toP "D", toP "1"] := by rfl

/-! ## Header detector (`src/ghg_processing/unfccc/header_detector.py`) -/

/-- A spreadsheet cell as seen by `detect_header_rows` after
`pd.read_excel(..., header=None)`: `none` is a NaN cell (skipped by
`pd.isna`), `some s` the cell's content as a string (`str(cell)`). -/
abbrev Cell := Option PyStr

/-- The anchor test on one cell string: Python
`if anchor and anchor.lower() in cell_str` — `anchor` is falsy when it
is `None` or the empty string. -/
def anchorHit (anchor : Option PyStr) (cellStr : PyStr) : Bool :=
  match anchor with
  | none => false
  | some a => !a.isEmpty && containsSub (pylower a) cellStr

/-- The keyword test on one cell string: Python
`if keywords and any(k.lower() in cell_str for k in keywords)` —
`keywords` is falsy when it is `None` or the empty list. -/
def keywordHit (keywords : Option (List PyStr)) (cellStr : PyStr) : Bool :=
  match keywords with
  | none => false
  | some ks => !ks.isEmpty && ks.any (fun k => containsSub (pylower k) cellStr)

/-- The inner cell loop of `detect_header_rows` over one row: skip NaN
cells; on the first cell whose lowercased string contains the anchor, or
failing that any keyword, stop with a match. -/
def rowLoop (anchor : Option PyStr) (keywords : Option (List PyStr)) : List Cell → Bool
  | [] => false
  | none :: rest => rowLoop anchor keywords rest
  | some cell :: rest =>
    let cellStr := pylower cell
    if anchorHit anchor cellStr then true
    else if keywordHit keywords cellStr then true
    else rowLoop anchor keywords rest

/-- The outer row loop of `detect_header_rows`: the index of the first
row (counting from `i`) whose cell loop finds a match. -/
def rowSearch (anchor : Option PyStr) (keywords : Option (List PyStr)) (i : Nat) :
    List (List Cell) → Option Nat
  | [] => none
  | row :: rest =>
    if rowLoop anchor keywords row then some i
    else rowSearch anchor keywords (i + 1) rest

/-- `detect_header_rows` from `header_detector.py`, applied to the sheet
contents (the Python reads `nrows=lookahead` rows of the file; the model
takes the sheet's rows and keeps the first `lookahead`).  Returns
`list(range(target_row, target_row + 2))`, or the `ValueError` raised
when no row matches. -/
def detect_header_rows (rows : List (List Cell)) (anchor : Option PyStr := none)
    (keywords : Option (List PyStr) := none) (lookahead : Nat := 15) :
    Except PyStr (List Nat) :=
  let preview := rows.take lookahead
  match rowSearch anchor keywords 0 preview with
  | some i => .ok [i, i + 1]
  | none => .error (toP "No header row detected with provided anchor or keywords.")

/-- Whether any cell of a row contains the (lowercased) anchor — the
priority the spec attributes to anchors. -/
def rowAnchorMatch (a : PyStr) (row : List Cell) : Bool :=
  row.any (fun c =>
    match c with
    | none => false
    | some s => containsSub (pylower a) (pylower s))

/-- A row matching `detect_header_rows`' single pass: some cell is
non-NaN and its lowercased string contains the anchor or some keyword. -/
def rowMatches (anchor : Option PyStr) (keywords : Option (List PyStr))
    (row : List Cell) : Bool :=
  row.any (fun c =>
    match c with
    | none => false
    | some s => anchorHit anchor (pylower s) || keywordHit keywords (pylower s))

example :
    detect_header_rows
      [[some (toP "Year 1990")],
       [some (toP "GREENHOUSE GAS SOURCE AND SINK CATEGORIES")]]
      (some (toP "GREENHOUSE")) (some [toP "year"]) = .ok [0, 1] := by rfl

/-! ## Filename parser (`extract_year_from_filename`) -/

/-- The index of the last occurrence of `c` in `s`, as Python
`str.rfind` (−1 when absent). -/
def pyrfind (c : Char) (s : PyStr) : Int :=
  match (s.reverse).findIdx? (fun d => d = c) with
  | some j => (s.length : Int) - 1 - (j : Int)
  | none => -1

/-- `os.path.splitext(p)[0]` (POSIX, no `altsep`): drop the extension —
the part from the last `.`, provided that dot lies after the last `/`
and the name between them is not entirely made of dots (so that
dotfiles like `.bashrc` keep their name). -/
def splitextRoot (p : PyStr) : PyStr :=
  let sepIndex := pyrfind '/' p
  let dotIndex := pyrfind '.' p
  if dotIndex > sepIndex then
    let nameStart := (sepIndex + 1).toNat
    let between := (p.drop nameStart).take (dotIndex.toNat - nameStart)
    if between.all (fun c => c = '.') then p else p.take dotIndex.toNat
  else p

/-- Python `int(s)` on a string: optional surrounding whitespace,
optional sign, then digits with single underscores allowed between
digits (ASCII digits; Unicode digit characters are not modelled).
`none` models the `ValueError` raised on any other input. -/
def pyIntDigits (acc : Nat) : PyStr → Option Nat
  | [] => some acc
  | c :: rest =>
    if c.isDigit then pyIntDigits (acc * 10 + (c.toNat - '0'.toNat)) rest
    else if c = '_' then
      match rest with
      | d :: rest2 =>
        if d.isDigit then pyIntDigits (acc * 10 + (d.toNat - '0'.toNat)) rest2 else none
      | [] => none
    else none

/-- Digits part of `int(s)`: non-empty, starting with a digit. -/
def pyIntBody (s : PyStr) : Option Nat :=
  match s with
  | [] => none
  | c :: rest => if c.isDigit then pyIntDigits (c.toNat - '0'.toNat) rest else none

/-- Python `int(s)` for a string argument. -/
def pyInt (s : PyStr) : Option Int :=
  match pystrip s with
  | '+' :: rest => (pyIntBody rest).map (fun n => (n : Int))
  | '-' :: rest => (pyIntBody rest).map (fun n => -(n : Int))
  | t => (pyIntBody t).map (fun n => (n : Int))

/-- `extract_year_from_filename` from `header_detector.py`: strip the
extension, split on `-`; with at least 5 parts, return
`(parts[0], int(parts[4]))`; otherwise raise — every raise is caught by
the surrounding `try/except`, which prints a warning and returns
`(None, None)`. -/
def extract_year_from_filename (filename : PyStr) : Option PyStr × Option Int :=
  let basename := splitextRoot filename
  let parts := basename.splitOn '-'
  let attempt : Except PyStr (Option PyStr × Option Int) :=
    if 5 ≤ parts.length then
      match pyInt (parts[4]?.getD []) with
      | some year => .ok (some (parts[0]?.getD []), some year)
      | none => .error (toP "invalid literal for int() with base 10")
    else .error (toP "Filename format is incorrect")
  match attempt with
  | .ok r => r
  | .error _ => (none, none)

example :
    extract_year_from_filename (toP "GBR-CRT-2025-V0.6-1990-20250415-091720.xlsx") =
      (some (toP "GBR"), some 1990) := by rfl

example : extract_year_from_filename (toP "GBR-CRT-2025.xlsx") = (none, none) := by rfl

/-! ## Gas-level pivot (`src/ghg_processing/unfccc/save_gases.py`) -/

/-- One row of the long-format input to `save_gas_level_parquet`,
restricted to the three columns the pivot consults
(`df[[index_col, column_col, gas_col]]`): the `Year`, the category
`Label`, and the gas value (`none` models a NaN emission value; the
numeric emission values themselves are opaque to the pivot, which only
selects them, so they are carried as integers). -/
structure GasEntry where
  year : Int
  label : PyStr
  value : Option Int
deriving DecidableEq, Repr

/-- pandas `GroupBy.first` for the `(year, label)` group: the first
non-null value of the group in table order (NaN entries are skipped). -/
def firstNonNull (y : Int) (l : PyStr) (es : List GasEntry) : Option Int :=
  ((es.filter (fun e => e.year = y && e.label = l)).filterMap (fun e => e.value)).head?

/-- The `(year, label)` groups kept by `pivot_table(..., dropna=True)`:
groups whose aggregate is non-null (all-NaN groups are dropped before
unstacking). -/
def keptPairs (es : List GasEntry) : List (Int × PyStr) :=
  ((es.map (fun e => (e.year, e.label))).dedup).filter
    (fun p => (firstNonNull p.1 p.2 es).isSome)

/-- Sorted insertion without duplicates, by a strict-order test. -/
def insSortedBy {α : Type} [DecidableEq α] (lt : α → α → Bool) (y : α) :
    List α → List α
  | [] => [y]
  | x :: xs =>
    if lt y x then y :: x :: xs
    else if y = x then x :: xs
    else x :: insSortedBy lt y xs

/-- Sort a list ascending, dropping duplicates. -/
def sortDedupBy {α : Type} [DecidableEq α] (lt : α → α → Bool) (l : List α) : List α :=
  l.foldr (insSortedBy lt) []

/-- Lexicographic comparison of Python strings (code-point order), the
order pandas uses for string column labels. -/
def pyStrLt : PyStr → PyStr → Bool
  | [], [] => false
  | [], _ :: _ => true
  | _ :: _, [] => false
  | a :: as_, b :: bs =>
    if a < b then true
    else if a = b then pyStrLt as_ bs
    else false

/-- The wide table produced by
`df[[index_col, column_col, gas_col]].pivot_table(index=index_col,
columns=column_col, values=value_col, aggfunc='first').sort_index()`:
the index is the sorted distinct years of the kept groups, the columns
the sorted distinct labels of the kept groups, and each cell the first
non-null gas value of its `(year, label)` group (`none` = NaN cell). -/
structure PivotTable where
  index : List Int
  columns : List PyStr
  cells : List (List (Option Int))
deriving DecidableEq, Repr

/-- The pivot at the heart of `save_gas_level_parquet` (the surrounding
code only renames files and writes the result to disk). -/
def save_gas_pivot (es : List GasEntry) : PivotTable :=
  let kept := keptPairs es
  let index := sortDedupBy (fun a b : Int => a < b) (kept.map Prod.fst)
  let columns := sortDedupBy pyStrLt (kept.map Prod.snd)
  { index := index
    columns := columns
    cells := index.map (fun y => columns.map (fun l => firstNonNull y l es)) }

example :
    save_gas_pivot
      [{ year := 2000, label := toP "A", value := none },
       { year := 2000, label := toP "A", value := some 5 },
       { year := 2001, label := toP "B", value := none }] =
      { index := [2000], columns := [toP "A"], cells := [[some 5]] } := by rfl

/-- The shape test used throughout: the first path segment exists and is
a non-empty string (so the `Sector` column of the row is truthy). -/
def headSeg : List PyStr → Bool
  | (_ :: _) :: _ => true
  | _ => false

/-- The path of the last row in the list that is numbered with a
non-empty path (the last context anchor), or the initial context when no
such row exists. -/
def lastNumbered (ctx : List PyStr) (ps : List Category) : List PyStr :=
  match (ps.filter (fun p => p.is_numbered && !p.levels.isEmpty)).getLast? with
  | some p => p.levels
  | none => ctx

/-- The dot-joined code `"n1.n2.….nk"` of a segment list. -/
def joinDots : List PyStr → PyStr
  | [] => []
  | [t] => t
  | t :: ts => t ++ '.' :: joinDots ts

/-- The three-entry partition exhibiting C7's two failures: a duplicate
`(2000, "A")` pair whose first occurrence has a NaN gas value, and a
year `2001` all of whose gas values are NaN. -/
def exampleGasEntries : List GasEntry :=
  [{ year := 2000, label := toP "A", value := none },
   { year := 2000, label := toP "A", value := some 5 },
   { year := 2001, label := toP "B", value := none }]

/-! ## Lemmas on the string primitives -/

theorem startswith_exists {p s : PyStr} (h : p.isPrefixOf s = true) :
    ∃ r, s = p ++ r := by
  have h2 : p <+: s := by simpa using h
  obtain ⟨r, rfl⟩ := h2
  exact ⟨r, rfl⟩

theorem startswith_append (p r : PyStr) : p.isPrefixOf (p ++ r) = true := by
  simp

theorem lstripBy_cons_neg {p : Char → Bool} {c : Char} (t : PyStr) (h : p c = false) :
    lstripBy p (c :: t) = c :: t := by
  simp [lstripBy, List.dropWhile_cons, h]

theorem rstripBy_concat_neg {p : Char → Bool} {c : Char} (s : PyStr) (h : p c = false) :
    rstripBy p (s ++ [c]) = s ++ [c] := by
  simp [rstripBy, List.reverse_append, List.dropWhile_cons, h]

theorem rstripBy_cons_ex {p : Char → Bool} {c : Char} (t : PyStr) (h : p c = false) :
    ∃ t2, rstripBy p (c :: t) = c :: t2 := by
  unfold rstripBy
  rw [show (c :: t).reverse = t.reverse ++ [c] by simp, List.dropWhile_append]
  by_cases hd : (List.dropWhile p t.reverse).isEmpty = true
  · refine ⟨[], ?_⟩
    simp [hd, List.dropWhile_cons, h]
  · refine ⟨(List.dropWhile p t.reverse).reverse, ?_⟩
    simp [hd]

theorem pystrip_noop {s : PyStr}
    (h1 : ∀ c, s.head? = some c → pyIsSpace c = false)
    (h2 : ∀ c, s.getLast? = some c → pyIsSpace c = false) :
    pystrip s = s := by
  cases s with
  | nil => rfl
  | cons a t =>
    have ha := h1 a rfl
    have hne : (a :: t) ≠ [] := by simp
    unfold pystrip
    rw [lstripBy_cons_neg _ ha]
    have hl := h2 _ (List.getLast?_eq_getLast (a :: t) hne)
    conv_lhs => rw [← List.dropLast_append_getLast hne]
    conv_rhs => rw [← List.dropLast_append_getLast hne]
    exact rstripBy_concat_neg _ hl

theorem pystrip_total {s : PyStr} (h : (toP "Total").isPrefixOf s = true) :
    (toP "Total").isPrefixOf (pystrip s) = true := by
  obtain ⟨r, rfl⟩ := startswith_exists h
  unfold pystrip
  have hl : lstripBy pyIsSpace (toP "Total" ++ r) = toP "Total" ++ r :=
    lstripBy_cons_neg _ (by decide)
  rw [hl]
  unfold rstripBy
  rw [List.reverse_append, List.dropWhile_append]
  by_cases hd : (List.dropWhile pyIsSpace r.reverse).isEmpty = true
  · rw [if_pos hd]
    have hT : List.dropWhile pyIsSpace (toP "Total").reverse = (toP "Total").reverse := by
      decide
    rw [hT, List.reverse_reverse]
    decide
  · rw [if_neg hd, List.reverse_append, List.reverse_reverse]
    exact startswith_append _ _

theorem digit_not_space {c : Char} (h : c.isDigit = true) : pyIsSpace c = false := by
  by_contra h2
  simp only [Bool.not_eq_false, pyIsSpace, Bool.or_eq_true, decide_eq_true_eq] at h2
  rcases h2 with ((((h2 | h2) | h2) | h2) | h2) | h2 <;> subst h2 <;> simp at h

theorem digit_ne {c : Char} (h : c.isDigit = true) {d : Char} (hd : d.isDigit = false) :
    c ≠ d := by
  intro he
  subst he
  rw [h] at hd
  cases hd

/-! ## Lemmas on `get_category` -/

theorem gc_total {s : PyStr} (h : (toP "Total").isPrefixOf (pystrip s) = true) :
    get_category s = { levels := [], label := pystrip s, is_memo := false,
                       is_numbered := false } := by
  simp [get_category, h]

theorem gc_numbered_iff (s : PyStr) :
    (get_category s).is_numbered = numberedFlag (pystrip s) := by
  by_cases hT : (toP "Total").isPrefixOf (pystrip s) = true
  · rw [gc_total hT]
    obtain ⟨r, hr⟩ := startswith_exists hT
    rw [hr]
    rfl
  · by_cases hN : numberedFlag (pystrip s) = true
    · simp [get_category, hT, hN]
    · simp [get_category, hT, hN]

theorem gc_nonnumbered {s : PyStr} (h : (get_category s).is_numbered = false) :
    (get_category s).levels = [] ∧ (get_category s).label = pystrip s := by
  by_cases hT : (toP "Total").isPrefixOf (pystrip s) = true
  · rw [gc_total hT]
    exact ⟨rfl, rfl⟩
  · by_cases hN : numberedFlag (pystrip s) = true
    · have : (get_category s).is_numbered = true := by simp [get_category, hT, hN]
      rw [this] at h
      cases h
    · simp [get_category, hT, hN]

theorem splitLevelLabel_head {c : Char} (t : PyStr) (h : c ≠ ' ') :
    ∃ x, (splitLevelLabel (c :: t)).1 = c :: x := by
  unfold splitLevelLabel pysplit1
  simp only [if_neg h]
  cases (pysplit1 t).2 with
  | none => exact ⟨t, rfl⟩
  | some rest => exact ⟨(pysplit1 t).1, rfl⟩

theorem splitOn_dot_head {c : Char} (t : PyStr) (h : c ≠ '.') :
    ∃ x rest, (c :: t).splitOn '.' = (c :: x) :: rest := by
  have hb : (c == '.') = false := by simp [h]
  rw [show (c :: t).splitOn '.' = List.splitOnP (· == '.') (c :: t) from rfl,
    List.splitOnP_cons, hb]
  simp only [Bool.false_eq_true, if_false]
  cases hsp : List.splitOnP (fun x => x == '.') t with
  | nil => exact absurd hsp (List.splitOnP_ne_nil _ _)
  | cons a rest => exact ⟨a, rest, rfl⟩

theorem gc_numbered_headSeg {s : PyStr} (h : (get_category s).is_numbered = true) :
    headSeg (get_category s).levels = true := by
  have hN : numberedFlag (pystrip s) = true := by rw [← gc_numbered_iff]; exact h
  have hT : ¬((toP "Total").isPrefixOf (pystrip s) = true) := by
    intro hT
    rw [gc_total hT] at h
    cases h
  cases hcs : pystrip s with
  | nil => rw [hcs] at hN; cases hN
  | cons c t =>
    rw [hcs] at hN
    have hc : c.isDigit = true := by
      simp only [numberedFlag, Bool.and_eq_true] at hN
      exact hN.1
    have hN2 : numberedFlag (pystrip s) = true := by rw [hcs]; exact hN
    have hT2 : ¬(toP "Total" <+: pystrip s) := by simpa using hT
    have hgc : (get_category s).levels =
        (pystripDots (splitLevelLabel (pystrip s)).1).splitOn '.' := by
      simp [get_category, hT2, hN2]
    obtain ⟨x, hx⟩ := splitLevelLabel_head t (digit_ne hc (by decide))
    have hcd : c ≠ '.' := digit_ne hc (by decide)
    have hdot : (fun d => decide (d = '.')) c = false := by simp [hcd]
    rw [hgc, hcs, hx]
    unfold pystripDots
    rw [lstripBy_cons_neg _ hdot]
    obtain ⟨x2, hx2⟩ :=
      rstripBy_cons_ex (p := fun d => decide (d = '.')) (c := c) x hdot
    rw [hx2]
    obtain ⟨y, rest, hy⟩ := splitOn_dot_head x2 hcd
    rw [hy]
    rfl

/-! ## Lemmas on the context pass and the partitioning -/

theorem contextPass_length (ps : List Category) (ctx : List PyStr) :
    (contextPass ctx ps).length = ps.length := by
  induction ps generalizing ctx with
  | nil => rfl
  | cons p rest ih =>
    unfold contextPass
    split
    · simp [ih]
    · split
      · simp [ih]
      · simp [ih]

theorem headSeg_append {l : List PyStr} (x : List PyStr) (h : headSeg l = true) :
    headSeg (l ++ x) = true := by
  cases l with
  | nil => cases h
  | cons a t =>
    cases a with
    | nil => cases h
    | cons c cs => rfl

theorem headSeg_ne_empty {l : List PyStr} (h : headSeg l = true) : l.isEmpty = false := by
  cases l with
  | nil => cases h
  | cons a t => rfl

theorem contextPass_good (ps : List Category) :
    ∀ ctx : List PyStr, (ctx = [] ∨ headSeg ctx = true) →
    (∀ p ∈ ps, p.is_numbered = true → headSeg p.levels = true) →
    ∀ q ∈ contextPass ctx ps,
      q.is_memo = true ∨ (toP "Total").isPrefixOf q.label = true ∨
        headSeg q.levels = true := by
  induction ps with
  | nil =>
    intro ctx _ _ q hq
    cases hq
  | cons p rest ih =>
    intro ctx hctx hps q hq
    have hp : p.is_numbered = true → headSeg p.levels = true := hps p (by simp)
    have hrest : ∀ p2 ∈ rest, p2.is_numbered = true → headSeg p2.levels = true :=
      fun p2 h2 => hps p2 (by simp [h2])
    unfold contextPass at hq
    by_cases h1 : (p.is_numbered && !p.levels.isEmpty) = true
    · obtain ⟨h1a, h1b⟩ : p.is_numbered = true ∧ (!p.levels.isEmpty) = true := by
        simpa using h1
      rw [if_pos h1] at hq
      rcases List.mem_cons.mp hq with heq | hq
      · rw [heq]
        exact Or.inr (Or.inr (hp h1a))
      · exact ih p.levels (Or.inr (hp h1a)) hrest q hq
    · rw [if_neg h1] at hq
      by_cases h2 :
          (!p.is_numbered && !((toP "Total").isPrefixOf p.label) && !p.is_memo) = true
      · rw [if_pos h2] at hq
        rcases List.mem_cons.mp hq with heq | hq
        · rw [heq]
          refine Or.inr (Or.inr ?_)
          rcases hctx with rfl | hh
          · simp [headSeg, toP]
          · rw [headSeg_ne_empty hh]
            simpa using headSeg_append [toP "child"] hh
        · exact ih ctx hctx hrest q hq
      · rw [if_neg h2] at hq
        rcases List.mem_cons.mp hq with heq | hq
        · rw [heq]
          cases hn : p.is_numbered with
          | true => exact Or.inr (Or.inr (hp hn))
          | false =>
            cases hm : p.is_memo with
            | true => exact Or.inl rfl
            | false =>
              cases hT : (toP "Total").isPrefixOf p.label with
              | true => exact Or.inr (Or.inl rfl)
              | false => simp [hn, hm, hT] at h2
        · exact ih ctx hctx hrest q hq

theorem classify_ne_unknown {lab : PyStr} {lv : List PyStr}
    (h : (toP "Total").isPrefixOf lab = true ∨ headSeg lv = true) :
    classify lab lv ≠ .Unknown := by
  by_cases hT : (toP "Total").isPrefixOf lab = true
  · simp [classify, hT]
  · rcases h with h | h
    · exact absurd h hT
    · have h0 : truthyCol lv 0 = true := by
        cases lv with
        | nil => cases h
        | cons a t =>
          cases a with
          | nil => cases h
          | cons c cs => simp [truthyCol]
      by_cases t1 : truthyCol lv 1 = true
      · by_cases t2 : truthyCol lv 2 = true
        · by_cases t3 : truthyCol lv 3 = true
          · by_cases t4 : truthyCol lv 4 = true
            · by_cases t5 : truthyCol lv 5 = true
              · by_cases t6 : truthyCol lv 6 = true
                · by_cases t7 : truthyCol lv 7 = true
                  · simp [classify, hT, h0, t1, t2, t3, t4, t5, t6, t7]
                  · simp [classify, hT, h0, t1, t2, t3, t4, t5, t6, t7]
                · simp [classify, hT, h0, t1, t2, t3, t4, t5, t6]
              · simp [classify, hT, h0, t1, t2, t3, t4, t5]
            · simp [classify, hT, h0, t1, t2, t3, t4]
          · simp [classify, hT, h0, t1, t2, t3]
        · simp [classify, hT, h0, t1, t2]
      · simp [classify, hT, h0, t1]

theorem length_filter_not {α : Type} (l : List α) (f : α → Bool) :
    (l.filter f).length + (l.filter (fun x => !(f x))).length = l.length := by
  induction l with
  | nil => rfl
  | cons a t ih =>
    by_cases h : f a = true
    · simp only [List.filter_cons, h]
      simp only [Bool.not_true, Bool.false_eq_true, if_false, if_true, List.length_cons]
      omega
    · simp only [List.filter_cons, h]
      simp only [Bool.not_eq_true] at h
      simp only [h, Bool.not_false, Bool.false_eq_true, if_false, if_true, List.length_cons]
      omega

theorem level_split (l : List ProcessedRow) (h : ∀ r ∈ l, r.level ≠ .Unknown) :
    (l.filter (fun r => r.level = .Total)).length +
    (l.filter (fun r => r.level = .Sector)).length +
    (l.filter (fun r => r.level = .Subsector)).length +
    (l.filter (fun r => r.level = .SubSubsector)).length +
    (l.filter (fun r => r.level = .SubSubSubsector)).length +
    (l.filter (fun r => r.level = .Level5)).length +
    (l.filter (fun r => r.level = .Level6)).length +
    (l.filter (fun r => r.level = .Level7)).length +
    (l.filter (fun r => r.level = .Level8)).length = l.length := by
  induction l with
  | nil => rfl
  | cons a t ih =>
    have ha := h a (by simp)
    have ht : ∀ r ∈ t, r.level ≠ .Unknown := fun r hr => h r (by simp [hr])
    specialize ih ht
    cases hl : a.level <;>
      first
      | exact absurd hl ha
      | (simp only [List.filter_cons, hl]; simp; omega)

theorem processHD_ok {rows : List PyStr} {P : Partitions}
    (h : processHierarchicalData rows = .ok P) : P = buildPartitions rows := by
  unfold processHierarchicalData at h
  dsimp only at h
  cases hl : List.map (fun p => p.levels.length)
      (List.filter (fun p => !p.levels.isEmpty) (parsedRows rows)) with
  | nil =>
    rw [hl] at h
    simp at h
  | cons a l =>
    rw [hl] at h
    simp only [Except.ok.injEq] at h
    exact h.symm

theorem processedRows_length (rows : List PyStr) :
    (processedRows rows).length = rows.length := by
  unfold processedRows parsedRows
  rw [List.length_map, contextPass_length, List.length_map]

theorem parsed_numbered_headSeg (rows : List PyStr) :
    ∀ p ∈ rows.map get_category, p.is_numbered = true → headSeg p.levels = true := by
  intro p hp
  obtain ⟨s, _, rfl⟩ := List.mem_map.mp hp
  exact gc_numbered_headSeg

theorem mainRows_not_unknown (rows : List PyStr) :
    ∀ r ∈ mainRows rows, r.level ≠ .Unknown := by
  intro r hr
  unfold mainRows at hr
  obtain ⟨hmem, hmemo⟩ := List.mem_filter.mp hr
  unfold processedRows at hmem
  obtain ⟨p, hp, rfl⟩ := List.mem_map.mp hmem
  have hgood := contextPass_good (rows.map get_category) [] (Or.inl rfl)
    (parsed_numbered_headSeg rows) p hp
  rcases hgood with hm | hT | hh
  · simp [hm] at hmemo
  · exact classify_ne_unknown (Or.inl hT)
  · exact classify_ne_unknown (Or.inr hh)

/-- Claim C1 (partition completeness): whenever
`process_hierarchical_data` accepts its input (category column present —
inherent to the model — and processing completes, i.e. the `max` over
path lengths does not raise), every input row lands in exactly one of
the ten returned partitions, so the partition sizes sum to the number of
input rows; no row is dropped or duplicated, and `Unknown`-classified
rows can only be memo rows, which the memo partition collects. -/
theorem C1_partition_completeness (rows : List PyStr) (P : Partitions)
    (h : processHierarchicalData rows = .ok P) :
    P.total_df.length + P.sector_df.length + P.subsector_df.length +
    P.sub_subsector_df.length + P.sub_sub_subsector_df.length +
    P.level_5_df.length + P.level_6_df.length + P.level_7_df.length +
    P.level_8_df.length + P.memo_df.length = rows.length := by
  rw [processHD_ok h]
  unfold buildPartitions
  dsimp only
  have hsplit := level_split (mainRows rows) (mainRows_not_unknown rows)
  have hmm : ((processedRows rows).filter (fun r => r.is_memo)).length +
      (mainRows rows).length = rows.length := by
    have h2 := length_filter_not (processedRows rows) (fun r => r.is_memo)
    rw [processedRows_length] at h2
    simpa [mainRows] using h2
  omega

/-- Witness for C1: a concrete one-row table on which processing
completes and the partition sizes sum to the row count. -/
theorem C1_partition_completeness_witness :
    ∃ P, processHierarchicalData [toP "1.A Fuel combustion"] = .ok P ∧
      P.total_df.length + P.sector_df.length + P.subsector_df.length +
      P.sub_subsector_df.length + P.sub_sub_subsector_df.length +
      P.level_5_df.length + P.level_6_df.length + P.level_7_df.length +
      P.level_8_df.length + P.memo_df.length = 1 := by
  refine ⟨buildPartitions [toP "1.A Fuel combustion"], rfl, ?_⟩
  exact C1_partition_completeness [toP "1.A Fuel combustion"]
    (buildPartitions [toP "1.A Fuel combustion"]) rfl

/-- Claim C8 (Total exclusivity): any input string starting with
`"Total"` yields an empty path, `is_numbered = false` and
`is_memo = false` from `get_category`, regardless of memo-prefix
collisions — Totals never participate in the hierarchy. -/
theorem C8_total_exclusivity (s : PyStr) (h : (toP "Total").isPrefixOf s = true) :
    (get_category s).levels = [] ∧ (get_category s).is_numbered = false ∧
      (get_category s).is_memo = false := by
  rw [gc_total (pystrip_total h)]
  exact ⟨rfl, rfl, rfl⟩

/-- Witness for C8 at the concrete string `"Total national emissions"`. -/
theorem C8_total_exclusivity_witness :
    (toP "Total national emissions").isPrefixOf (toP "Total national emissions") = true ∧
      (get_category (toP "Total national emissions")).levels = [] ∧
      (get_category (toP "Total national emissions")).is_numbered = false ∧
      (get_category (toP "Total national emissions")).is_memo = false := by
  have h : (toP "Total").isPrefixOf (toP "Total national emissions") = true := by decide
  exact ⟨by decide, C8_total_exclusivity (toP "Total national emissions") h⟩

/-- Claim C10 (implicit totality of the category parser): `get_category`
is a total function on strings — the Lean embedding returns a `Category`
record with exactly the four fields `levels`, `label`, `is_memo`,
`is_numbered` for every input, modelling that the Python function
returns the four-key dict and never raises — and whenever
`is_numbered` is `false` the returned `levels` is the empty list and
`label` is the stripped input string verbatim. -/
theorem C10_parser_totality (s : PyStr) (h : (get_category s).is_numbered = false) :
    get_category s = { levels := [], label := pystrip s,
                       is_memo := (get_category s).is_memo, is_numbered := false } := by
  obtain ⟨h1, h2⟩ := gc_nonnumbered h
  cases hgc : get_category s
  rw [hgc] at h h1 h2
  simp_all

/-- Witness for C10 at the concrete strings `"nan"` and `""`. -/
theorem C10_parser_totality_witness :
    (get_category (toP "nan")).levels = [] ∧
      (get_category (toP "nan")).label = pystrip (toP "nan") ∧
      (get_category (toP "")).levels = [] ∧
      (get_category (toP "")).label = pystrip (toP "") := by
  have h1 := C10_parser_totality (toP "nan") (by decide)
  have h2 := C10_parser_totality (toP "") (by decide)
  exact ⟨by rw [h1], by rw [h1], by rw [h2], by rw [h2]⟩

/-- Counterexample to claim C3 as stated: on the spec's five example
rows, the Sector partition's single row is labelled `"1 Energy"` — the
full category string — not `"Energy"`: since `"1 Energy"` contains no
`.`, `get_category` treats it as non-numbered and keeps the whole
string as the label (the path `["1"]` arises only from the context-less
synthetic-path fallback). -/
theorem C3_counterexample :
    ∃ P, processHierarchicalData exampleRows = .ok P ∧
      P.sector_df.map (fun r => r.label) ≠ [toP "Energy"] ∧
      P.sector_df.map (fun r => r.label) = [toP "1 Energy"] :=
  ⟨buildPartitions exampleRows, rfl, by decide, by decide⟩

/-- Claim C3, amended (end-to-end example): on the five example rows,
`process_hierarchical_data` yields a Total partition with exactly the
row labelled `"Total national emissions"`; a Sector partition with
exactly one row, labelled `"1 Energy"` (not `"Energy"`), with path
`["1"]`; a Subsector partition with exactly the row `"Fuel combustion"`
with path `["1","A"]`; a Sub-subsector partition with exactly the row
`"Energy industries"` with path `["1","A","1"]`; a Memo partition with
exactly one row with `Is_Memo` true; and nothing else anywhere. -/
theorem C3_end_to_end_amended :
    processHierarchicalData exampleRows =
      .ok
        { total_df := [{ levels := [], label := toP "Total national emissions",
                         is_memo := false, level := .Total }]
          sector_df := [{ levels := [toP "1"], label := toP "1 Energy",
                          is_memo := false, level := .Sector }]
          subsector_df := [{ levels := [toP "1", toP "A"],
                             label := toP "Fuel combustion",
                             is_memo := false, level := .Subsector }]
          sub_subsector_df := [{ levels := [toP "1", toP "A", toP "1"],
                                 label := toP "Energy industries",
                                 is_memo := false, level := .SubSubsector }]
          sub_sub_subsector_df := []
          level_5_df := []
          level_6_df := []
          level_7_df := []
          level_8_df := []
          memo_df := [{ levels := [],
                        label := toP "Memo items: International bunkers",
                        is_memo := true, level := .Unknown }] } := by
  rfl

/-! ## Characterisation of the context anchors (claim C2) -/

theorem getLast?_cons_eq {α : Type} (a : α) (l : List α) :
    (a :: l).getLast? = some (match l.getLast? with | some x => x | none => a) := by
  induction l generalizing a with
  | nil => rfl
  | cons b t ih =>
    rw [List.getLast?_cons_cons, ih b]

theorem ctxAfter_cons (ctx : List PyStr) (p : Category) (rest : List Category) :
    ctxAfter ctx (p :: rest) =
      if p.is_numbered && !p.levels.isEmpty then ctxAfter p.levels rest
      else ctxAfter ctx rest := rfl

theorem ctxAfter_eq_lastNumbered (ps : List Category) :
    ∀ ctx : List PyStr, ctxAfter ctx ps = lastNumbered ctx ps := by
  induction ps with
  | nil => intro ctx; rfl
  | cons p rest ih =>
    intro ctx
    unfold ctxAfter lastNumbered
    by_cases h : (p.is_numbered && !p.levels.isEmpty) = true
    · rw [if_pos h, ih p.levels, List.filter_cons, if_pos h, getLast?_cons_eq]
      unfold lastNumbered
      cases (rest.filter (fun p => p.is_numbered && !p.levels.isEmpty)).getLast? <;> rfl
    · have hb : (p.is_numbered && !p.levels.isEmpty) = false := by
        simpa using h
      rw [if_neg h, ih ctx, List.filter_cons, hb]
      simp only [Bool.false_eq_true, if_false]
      rfl

/-- The synthetic path assigned to a context-less continuation row. -/
theorem contextPass_getElem (ps : List Category) :
    ∀ (ctx : List PyStr) (i : Nat) (p : Category), ps[i]? = some p →
      (contextPass ctx ps)[i]? = some (
        if p.is_numbered || (toP "Total").isPrefixOf p.label || p.is_memo then p
        else { p with levels :=
          if (ctxAfter ctx (ps.take i)).isEmpty then [toP "1"]
          else ctxAfter ctx (ps.take i) ++ [toP "child"] }) := by
  induction ps with
  | nil =>
    intro ctx i p hp
    simp at hp
  | cons q rest ih =>
    intro ctx i p hp
    cases i with
    | zero =>
      rw [List.getElem?_cons_zero, Option.some.injEq] at hp
      subst hp
      unfold contextPass
      by_cases h1 : (q.is_numbered && !q.levels.isEmpty) = true
      · have hn : q.is_numbered = true := by
          have h3 := h1
          simp only [Bool.and_eq_true] at h3
          exact h3.1
        rw [if_pos h1, List.getElem?_cons_zero]
        simp [hn]
      · rw [if_neg h1]
        by_cases h2 :
            (!q.is_numbered && !((toP "Total").isPrefixOf q.label) && !q.is_memo) = true
        · obtain ⟨hn, hT, hm⟩ :
              (!q.is_numbered) = true ∧ (!(toP "Total").isPrefixOf q.label) = true ∧
                (!q.is_memo) = true := by simpa [and_assoc] using h2
          rw [if_pos h2, List.getElem?_cons_zero]
          simp only [Bool.not_eq_true'] at hn hT hm
          simp [hn, hT, hm, ctxAfter]
        · rw [if_neg h2, List.getElem?_cons_zero]
          have hcond :
              (q.is_numbered || (toP "Total").isPrefixOf q.label || q.is_memo) = true := by
            cases hn : q.is_numbered with
            | true => rfl
            | false =>
              cases hT : (toP "Total").isPrefixOf q.label with
              | true => simp
              | false =>
                cases hm : q.is_memo with
                | true => simp
                | false => simp [hn, hT, hm] at h2
          simp [hcond]
    | succ j =>
      have hp2 : rest[j]? = some p := by simpa using hp
      unfold contextPass
      by_cases h1 : (q.is_numbered && !q.levels.isEmpty) = true
      · rw [if_pos h1, List.getElem?_cons_succ, ih q.levels j p hp2,
          List.take_succ_cons]
        have hctx : ctxAfter ctx (q :: rest.take j) = ctxAfter q.levels (rest.take j) := by
          rw [ctxAfter_cons, if_pos h1]
        rw [hctx]
      · rw [if_neg h1]
        have hctx : ctxAfter ctx (q :: rest.take j) = ctxAfter ctx (rest.take j) := by
          rw [ctxAfter_cons, if_neg h1]
        by_cases h2 :
            (!q.is_numbered && !((toP "Total").isPrefixOf q.label) && !q.is_memo) = true
        · rw [if_pos h2, List.getElem?_cons_succ, ih ctx j p hp2, List.take_succ_cons,
            hctx]
        · rw [if_neg h2, List.getElem?_cons_succ, ih ctx j p hp2, List.take_succ_cons,
            hctx]

/-- Counterexample to claim C2 as stated: the numbered memo row
`"1.D.1 International aviation"` does become a context anchor.  Starting
from the empty context, processing just this row leaves
`current_context = ["1","D","1"] ≠ []`, and a following non-numbered
prose row receives the synthetic path `["1","D","1","child"]` instead of
the `["1"]` it would receive had memo rows never anchored. -/
theorem C2_counterexample :
    (get_category (toP "1.D.1 International aviation")).is_memo = true ∧
      ctxAfter [] [get_category (toP "1.D.1 International aviation")] ≠ [] ∧
      (contextPass [] [get_category (toP "1.D.1 International aviation"),
          get_category (toP "some prose note")]).map (fun p => p.levels) =
        [[toP "1", toP "D", toP "1"], [toP "1", toP "D", toP "1", toP "child"]] :=
  ⟨by decide, by decide, by decide⟩

/-- Claim C2, amended: during context propagation, `currentContext` is
updated exactly by the numbered rows with a non-empty path — including
numbered *memo* rows, which do anchor context (this is where the
original claim fails); Total rows are never numbered, hence never
anchor; and synthetic paths (`currentContext + ["child"]`, or `["1"]`
when the context is empty) are assigned exactly to the rows that are
non-numbered, not Total-labelled and not memo, all other rows passing
through unchanged. -/
theorem C2_context_anchors_amended :
    (∀ (ctx : List PyStr) (ps : List Category),
      ctxAfter ctx ps = lastNumbered ctx ps) ∧
    (∀ s : PyStr, (toP "Total").isPrefixOf s = true →
      (get_category s).is_numbered = false) ∧
    (∀ (ctx : List PyStr) (ps : List Category) (i : Nat) (p : Category),
      ps[i]? = some p →
      (contextPass ctx ps)[i]? = some (
        if p.is_numbered || (toP "Total").isPrefixOf p.label || p.is_memo then p
        else { p with levels :=
          if (ctxAfter ctx (ps.take i)).isEmpty then [toP "1"]
          else ctxAfter ctx (ps.take i) ++ [toP "child"] })) := by
  refine ⟨fun ctx ps => ctxAfter_eq_lastNumbered ps ctx, fun s h => ?_,
    fun ctx ps i p hp => contextPass_getElem ps ctx i p hp⟩
  rw [gc_total (pystrip_total h)]

/-- Witness for C2 (amended) at concrete inputs: the context after a
numbered memo row is that row's path, a Total-prefixed string is not
numbered, and a context-less prose row receives the synthetic path
`["1"]`. -/
theorem C2_context_anchors_amended_witness :
    ctxAfter [] [get_category (toP "1.D. Feedstocks")] =
      lastNumbered [] [get_category (toP "1.D. Feedstocks")] ∧
    (get_category (toP "Total CO2 equivalent")).is_numbered = false ∧
    (contextPass [] [get_category (toP "other prose")])[0]? =
      some { levels := [toP "1"], label := toP "other prose",
             is_memo := false, is_numbered := false } := by
  refine ⟨C2_context_anchors_amended.1 [] [get_category (toP "1.D. Feedstocks")],
    C2_context_anchors_amended.2.1 (toP "Total CO2 equivalent") (by decide), ?_⟩
  have h := C2_context_anchors_amended.2.2 [] [get_category (toP "other prose")] 0
    (get_category (toP "other prose")) rfl
  exact h.trans (by decide)

/-! ## Low-information tables (claim C6) -/

theorem contextPass_nonnumbered (ps : List Category)
    (h : ∀ p ∈ ps, p.is_numbered = false) :
    contextPass [] ps = ps.map (fun p =>
      if !((toP "Total").isPrefixOf p.label) && !p.is_memo then
        { p with levels := [toP "1"] } else p) := by
  induction ps with
  | nil => rfl
  | cons p rest ih =>
    have hp : p.is_numbered = false := h p (by simp)
    have hrest : ∀ p2 ∈ rest, p2.is_numbered = false := fun p2 h2 => h p2 (by simp [h2])
    unfold contextPass
    rw [if_neg (by simp [hp])]
    by_cases h2 :
        (!p.is_numbered && !((toP "Total").isPrefixOf p.label) && !p.is_memo) = true
    · have hc : (!((toP "Total").isPrefixOf p.label) && !p.is_memo) = true := by
        simp only [hp, Bool.not_false, Bool.true_and] at h2
        exact h2
      rw [if_pos h2, List.map_cons, if_pos hc, ih hrest]
      rfl
    · have hc : (!((toP "Total").isPrefixOf p.label) && !p.is_memo) = false := by
        by_contra hcc
        simp only [Bool.not_eq_false] at hcc
        exact h2 (by simp [hp, hcc])
      rw [if_neg h2, List.map_cons, if_neg (by simp [hc]), ih hrest]

theorem processHD_eq_ok (rows : List PyStr)
    (h : ((parsedRows rows).filter (fun p => !p.levels.isEmpty)).map
      (fun p => p.levels.length) ≠ []) :
    processHierarchicalData rows = .ok (buildPartitions rows) := by
  unfold processHierarchicalData
  dsimp only
  cases hl : ((parsedRows rows).filter (fun p => !p.levels.isEmpty)).map
      (fun p => p.levels.length) with
  | nil => exact absurd hl h
  | cons a l => rfl

theorem processed_char (rows : List PyStr)
    (hnum : ∀ r ∈ rows, (get_category r).is_numbered = false)
    (htot : ∀ r ∈ rows, (toP "Total").isPrefixOf (pystrip r) = false) :
    ∀ q ∈ processedRows rows,
      (q.is_memo = false → q.levels = [toP "1"] ∧ q.level = .Sector) ∧
      (q.is_memo = true → q.level = .Unknown) := by
  have hnn : ∀ p2 ∈ rows.map get_category, p2.is_numbered = false := by
    intro p2 hp2
    obtain ⟨r, hr, rfl⟩ := List.mem_map.mp hp2
    exact hnum r hr
  intro q hq
  unfold processedRows parsedRows at hq
  rw [contextPass_nonnumbered _ hnn] at hq
  obtain ⟨p, hp, rfl⟩ := List.mem_map.mp hq
  obtain ⟨p0, hp0, rfl⟩ := List.mem_map.mp hp
  obtain ⟨r, hr, rfl⟩ := List.mem_map.mp hp0
  have hel := gc_nonnumbered (hnum r hr)
  have hT : (toP "Total").isPrefixOf (get_category r).label = false := by
    rw [hel.2]
    exact htot r hr
  by_cases hm : (get_category r).is_memo = true
  · have hcond :
        (!((toP "Total").isPrefixOf (get_category r).label) && !(get_category r).is_memo)
          = false := by simp [hm]
    rw [if_neg (by simp [hcond])]
    refine ⟨fun hfalse => absurd hfalse (by simp [hm]), fun _ => ?_⟩
    show classify (get_category r).label (get_category r).levels = .Unknown
    rw [hel.1]
    unfold classify
    rw [if_neg (by simp [hT])]
    simp [truthyCol]
  · have hm2 : (get_category r).is_memo = false := by simpa using hm
    have hcond :
        (!((toP "Total").isPrefixOf (get_category r).label) && !(get_category r).is_memo)
          = true := by simp [hT, hm2]
    rw [if_pos hcond]
    refine ⟨fun _ => ⟨rfl, ?_⟩, fun htrue => absurd htrue (by simp [hm2])⟩
    show classify (get_category r).label [toP "1"] = .Sector
    unfold classify
    rw [if_neg (by simp [hT])]
    simp [truthyCol, toP]

/-- Counterexample to claim C6 as stated: the one-row table whose only
category is `"Memo items: International bunkers"` has zero numbered rows
and zero Total rows, yet `process_hierarchical_data` raises
(`max() arg is an empty sequence`): every parsed path is empty, so the
`max` over non-empty paths gets an empty generator. -/
theorem C6_counterexample :
    (get_category (toP "Memo items: International bunkers")).is_numbered = false ∧
      (toP "Total").isPrefixOf (pystrip (toP "Memo items: International bunkers")) = false ∧
      processHierarchicalData [toP "Memo items: International bunkers"] =
        .error (toP "max() arg is an empty sequence") :=
  ⟨by decide, by decide, by rfl⟩

/-- Claim C6, amended: an input table with zero numbered rows and zero
Total rows completes without error *provided at least one row is not a
memo item*; each non-memo row receives the context-less fallback path
`["1"]` and is classified `Sector` (not `Unknown`), memo rows keep an
empty path and are classified `Unknown`, landing in the memo partition;
the row count is preserved across the two non-empty partitions.  (When
every row is a memo item — or the table is empty — the `max` over path
lengths raises, as the counterexample shows.) -/
theorem C6_low_information_amended (rows : List PyStr)
    (hnum : ∀ r ∈ rows, (get_category r).is_numbered = false)
    (htot : ∀ r ∈ rows, (toP "Total").isPrefixOf (pystrip r) = false)
    (hsome : ∃ r ∈ rows, (get_category r).is_memo = false) :
    ∃ P, processHierarchicalData rows = .ok P ∧
      P.sector_df.length + P.memo_df.length = rows.length ∧
      P.total_df = [] ∧ P.subsector_df = [] ∧ P.sub_subsector_df = [] ∧
      P.sub_sub_subsector_df = [] ∧ P.level_5_df = [] ∧ P.level_6_df = [] ∧
      P.level_7_df = [] ∧ P.level_8_df = [] ∧
      (∀ q ∈ P.sector_df, q.levels = [toP "1"]) ∧
      (∀ q ∈ P.memo_df, q.level = .Unknown) := by
  have hnn : ∀ p2 ∈ rows.map get_category, p2.is_numbered = false := by
    intro p2 hp2
    obtain ⟨r, hr, rfl⟩ := List.mem_map.mp hp2
    exact hnum r hr
  have hchar := processed_char rows hnum htot
  -- the non-memo witness row yields a non-empty path, so `max` succeeds
  obtain ⟨r, hr, hrm⟩ := hsome
  have hel := gc_nonnumbered (hnum r hr)
  have hTlab : (toP "Total").isPrefixOf (get_category r).label = false := by
    rw [hel.2]
    exact htot r hr
  have hcond :
      (!((toP "Total").isPrefixOf (get_category r).label) && !(get_category r).is_memo)
        = true := by simp [hTlab, hrm]
  have hpmem : ({ get_category r with levels := [toP "1"] } : Category) ∈
      parsedRows rows := by
    unfold parsedRows
    rw [contextPass_nonnumbered _ hnn]
    refine List.mem_map.mpr ⟨get_category r, List.mem_map.mpr ⟨r, hr, rfl⟩, ?_⟩
    rw [if_pos hcond]
  have hlens : ((parsedRows rows).filter (fun p => !p.levels.isEmpty)).map
      (fun p => p.levels.length) ≠ [] := by
    intro he
    have hfil : (parsedRows rows).filter (fun p => !p.levels.isEmpty) = [] := by
      cases hf : (parsedRows rows).filter (fun p => !p.levels.isEmpty) with
      | nil => rfl
      | cons a l =>
        rw [hf] at he
        cases he
    have hmem := List.filter_eq_nil_iff.mp hfil _ hpmem
    simp [toP] at hmem
  have hmain : ∀ q ∈ mainRows rows, q.level = .Sector ∧ q.levels = [toP "1"] := by
    intro q hq
    obtain ⟨hmem, hmemo⟩ := List.mem_filter.mp hq
    have hc := hchar q hmem
    have hqm : q.is_memo = false := by simpa using hmemo
    exact ⟨(hc.1 hqm).2, (hc.1 hqm).1⟩
  refine ⟨buildPartitions rows, processHD_eq_ok rows hlens, ?_⟩
  unfold buildPartitions
  dsimp only
  have hsec : (mainRows rows).filter (fun r => r.level = .Sector) = mainRows rows :=
    List.filter_eq_self.mpr (fun a ha => by simp [(hmain a ha).1])
  have hcount : ((processedRows rows).filter (fun r => r.is_memo)).length +
      (mainRows rows).length = rows.length := by
    have h2 := length_filter_not (processedRows rows) (fun r => r.is_memo)
    rw [processedRows_length] at h2
    simpa [mainRows] using h2
  refine ⟨by rw [hsec]; omega, ?_, ?_, ?_, ?_, ?_, ?_, ?_, ?_, ?_, ?_⟩
  · exact List.filter_eq_nil_iff.mpr (fun a ha => by simp [(hmain a ha).1])
  · exact List.filter_eq_nil_iff.mpr (fun a ha => by simp [(hmain a ha).1])
  · exact List.filter_eq_nil_iff.mpr (fun a ha => by simp [(hmain a ha).1])
  · exact List.filter_eq_nil_iff.mpr (fun a ha => by simp [(hmain a ha).1])
  · exact List.filter_eq_nil_iff.mpr (fun a ha => by simp [(hmain a ha).1])
  · exact List.filter_eq_nil_iff.mpr (fun a ha => by simp [(hmain a ha).1])
  · exact List.filter_eq_nil_iff.mpr (fun a ha => by simp [(hmain a ha).1])
  · exact List.filter_eq_nil_iff.mpr (fun a ha => by simp [(hmain a ha).1])
  · intro q hq
    rw [hsec] at hq
    exact (hmain q hq).2
  · intro q hq
    obtain ⟨hmem, hmemo⟩ := List.mem_filter.mp hq
    exact (hchar q hmem).2 hmemo

/-- Witness for C6 (amended) on the concrete two-row table
`["some prose", "Memo items: International bunkers"]`. -/
theorem C6_low_information_amended_witness :
    ∃ P, processHierarchicalData
        [toP "some prose", toP "Memo items: International bunkers"] = .ok P ∧
      P.sector_df.length + P.memo_df.length = 2 ∧
      P.total_df = [] ∧ P.subsector_df = [] ∧ P.sub_subsector_df = [] ∧
      P.sub_sub_subsector_df = [] ∧ P.level_5_df = [] ∧ P.level_6_df = [] ∧
      P.level_7_df = [] ∧ P.level_8_df = [] ∧
      (∀ q ∈ P.sector_df, q.levels = [toP "1"]) ∧
      (∀ q ∈ P.memo_df, q.level = .Unknown) :=
  C6_low_information_amended
    [toP "some prose", toP "Memo items: International bunkers"]
    (by decide) (by decide) ⟨toP "some prose", by decide, by decide⟩

/-! ## Round-trip of dotted codes (claim C5) -/

theorem joinDots_cons_cons (t u : PyStr) (ts : List PyStr) :
    joinDots (t :: u :: ts) = t ++ '.' :: joinDots (u :: ts) := rfl

theorem joinDots_ne_nil {segs : List PyStr} (h1 : segs ≠ [])
    (h2 : ∀ t ∈ segs, t ≠ []) : joinDots segs ≠ [] := by
  cases segs with
  | nil => exact absurd rfl h1
  | cons t ts =>
    cases ts with
    | nil => exact h2 t (by simp)
    | cons u ts2 => simp [joinDots_cons_cons]

theorem joinDots_head {c : Char} (cs : PyStr) (ts : List PyStr) :
    ∃ x, joinDots ((c :: cs) :: ts) = c :: x := by
  cases ts with
  | nil => exact ⟨cs, rfl⟩
  | cons u ts2 => exact ⟨cs ++ '.' :: joinDots (u :: ts2), rfl⟩

theorem joinDots_no_space {segs : List PyStr} (h : ∀ t ∈ segs, ' ' ∉ t) :
    ' ' ∉ joinDots segs := by
  induction segs with
  | nil => simp [joinDots]
  | cons t ts ih =>
    cases ts with
    | nil => exact h t (by simp)
    | cons u ts2 =>
      rw [joinDots_cons_cons]
      intro hm
      rcases List.mem_append.mp hm with hm | hm
      · exact h t (by simp) hm
      · rcases List.mem_cons.mp hm with hm | hm
        · exact absurd hm (by decide)
        · exact ih (fun t2 h2 => h t2 (by simp [h2])) hm

theorem joinDots_has_dot (t u : PyStr) (ts : List PyStr) :
    '.' ∈ joinDots (t :: u :: ts) := by
  rw [joinDots_cons_cons]
  exact List.mem_append.mpr (Or.inr (List.mem_cons_self _ _))

theorem mem_of_getLast_some {α : Type} {l : List α} {a : α}
    (h : l.getLast? = some a) : a ∈ l := by
  induction l with
  | nil => cases h
  | cons b t ih =>
    rw [getLast?_cons_eq] at h
    cases ht : t.getLast? with
    | none =>
      rw [ht] at h
      simp only [Option.some.injEq] at h
      subst h
      exact List.mem_cons_self _ _
    | some x =>
      rw [ht] at h
      simp only [Option.some.injEq] at h
      subst h
      exact List.mem_cons_of_mem _ (ih ht)

theorem getLast?_append_right {l1 l2 : List Char} (h : l2 ≠ []) :
    (l1 ++ l2).getLast? = l2.getLast? := by
  rw [List.getLast?_append, List.getLast?_eq_getLast l2 h]
  rfl

theorem joinDots_last_ne_dot : ∀ (segs : List PyStr),
    (∀ t ∈ segs, t ≠ [] ∧ '.' ∉ t) →
    ∀ c, (joinDots segs).getLast? = some c → c ≠ '.' := by
  intro segs
  induction segs with
  | nil =>
    intro _ c hc
    cases hc
  | cons t ts ih =>
    intro h c hc
    cases ts with
    | nil =>
      have hmem := mem_of_getLast_some hc
      intro he
      subst he
      exact (h t (by simp)).2 hmem
    | cons u ts2 =>
      rw [joinDots_cons_cons] at hc
      have hju : joinDots (u :: ts2) ≠ [] :=
        joinDots_ne_nil (by simp) (fun t2 h2 => (h t2 (by simp [h2])).1)
      rw [getLast?_append_right (by simp), getLast?_cons_eq] at hc
      cases hj : (joinDots (u :: ts2)).getLast? with
      | none =>
        rw [List.getLast?_eq_getLast _ hju] at hj
        cases hj
      | some x =>
        rw [hj] at hc
        simp only [Option.some.injEq] at hc
        subst hc
        exact ih (fun t2 h2 => h t2 (by simp [h2])) x hj

theorem joinDots_eq_intercalate : ∀ segs : List PyStr,
    joinDots segs = List.intercalate ['.'] segs := by
  intro segs
  induction segs with
  | nil => rfl
  | cons t ts ih =>
    cases ts with
    | nil => simp [joinDots, List.intercalate, List.intersperse]
    | cons u ts2 =>
      rw [joinDots_cons_cons, ih]
      simp [List.intercalate, List.intersperse]

theorem splitOn_joinDots {segs : List PyStr} (h1 : segs ≠ [])
    (h2 : ∀ t ∈ segs, '.' ∉ t) : (joinDots segs).splitOn '.' = segs := by
  rw [joinDots_eq_intercalate]
  exact List.splitOn_intercalate segs '.' h2 h1

theorem pysplit1_append (code lab : PyStr) (h : ' ' ∉ code) :
    pysplit1 (code ++ ' ' :: lab) = (code, some lab) := by
  induction code with
  | nil => simp [pysplit1]
  | cons c t ih =>
    have hc : c ≠ ' ' := fun he => h (by rw [he]; exact List.mem_cons_self _ _)
    have ht : ' ' ∉ t := fun hm => h (List.mem_cons_of_mem _ hm)
    simp [pysplit1, hc, ih ht]

theorem stripBy_noop {p : Char → Bool} {s : PyStr}
    (h1 : ∀ c, s.head? = some c → p c = false)
    (h2 : ∀ c, s.getLast? = some c → p c = false) :
    rstripBy p (lstripBy p s) = s := by
  cases s with
  | nil => rfl
  | cons a t =>
    have ha := h1 a rfl
    have hne : (a :: t) ≠ [] := by simp
    rw [lstripBy_cons_neg _ ha]
    have hl := h2 _ (List.getLast?_eq_getLast (a :: t) hne)
    conv_lhs => rw [← List.dropLast_append_getLast hne]
    conv_rhs => rw [← List.dropLast_append_getLast hne]
    exact rstripBy_concat_neg _ hl

theorem total_prefix_false {c : Char} {t : PyStr} (h : c ≠ 'T') :
    (toP "Total").isPrefixOf (c :: t) = false := by
  rw [Bool.eq_false_iff]
  intro hT
  obtain ⟨r, hr⟩ := startswith_exists hT
  rw [show toP "Total" = 'T' :: toP "otal" from rfl] at hr
  exact h (List.cons.inj hr).1

theorem gc_numbered_eq {s : PyStr}
    (hT : (toP "Total").isPrefixOf (pystrip s) = false)
    (hN : numberedFlag (pystrip s) = true) :
    get_category s =
      { levels := (pystripDots (splitLevelLabel (pystrip s)).1).splitOn '.',
        label := pystrip (splitLevelLabel (pystrip s)).2,
        is_memo := memoFlag (pystrip s), is_numbered := true } := by
  have hT2 : ¬(toP "Total" <+: pystrip s) := by
    simp only [Bool.eq_false_iff] at hT
    simpa using hT
  simp [get_category, hT2, hN]

/-- Claim C5 (round-trip depth invariant): for a category string of the
form `"{n1}.{n2}.….{nk} label"` — dot-separated non-empty code segments
free of dots and spaces, at least two of them (so that a `.` is
present), the first starting with a digit, followed by a space and a
non-empty label with no surrounding whitespace — `get_category` returns
a path of length exactly `k` (in fact the segments themselves), the
label verbatim, and `is_numbered = true`.  And a (pre-stripped, per the
spec's contract) string is numbered iff its first character is a digit
and it contains at least one `'.'`. -/
theorem C5_roundtrip_depth :
    (∀ (c : Char) (cs : PyStr) (rest : List PyStr) (lab : PyStr),
      c.isDigit = true → rest ≠ [] →
      (∀ t ∈ (c :: cs) :: rest, t ≠ [] ∧ '.' ∉ t ∧ ' ' ∉ t) →
      lab ≠ [] →
      (∀ c0, lab.head? = some c0 → pyIsSpace c0 = false) →
      (∀ c0, lab.getLast? = some c0 → pyIsSpace c0 = false) →
      (get_category (joinDots ((c :: cs) :: rest) ++ ' ' :: lab)).levels =
        (c :: cs) :: rest ∧
      (get_category (joinDots ((c :: cs) :: rest) ++ ' ' :: lab)).levels.length =
        ((c :: cs) :: rest).length ∧
      (get_category (joinDots ((c :: cs) :: rest) ++ ' ' :: lab)).label = lab ∧
      (get_category (joinDots ((c :: cs) :: rest) ++ ' ' :: lab)).is_numbered = true) ∧
    (∀ s : PyStr, pystrip s = s →
      ((get_category s).is_numbered = true ↔
        ∃ c t, s = c :: t ∧ c.isDigit = true ∧ '.' ∈ s)) := by
  constructor
  · intro c cs rest lab hdig hrest hsegs hlabne hlab1 hlab2
    obtain ⟨x, hcode⟩ := joinDots_head cs rest
    have hs_eq : joinDots ((c :: cs) :: rest) ++ ' ' :: lab =
        c :: (x ++ ' ' :: lab) := by rw [hcode]; rfl
    have hstrip : pystrip (joinDots ((c :: cs) :: rest) ++ ' ' :: lab) =
        joinDots ((c :: cs) :: rest) ++ ' ' :: lab := by
      apply pystrip_noop
      · intro c0 h0
        rw [hs_eq] at h0
        simp only [List.head?_cons, Option.some.injEq] at h0
        subst h0
        exact digit_not_space hdig
      · intro c0 h0
        rw [show joinDots ((c :: cs) :: rest) ++ ' ' :: lab =
            (joinDots ((c :: cs) :: rest) ++ [' ']) ++ lab by simp] at h0
        rw [getLast?_append_right hlabne] at h0
        exact hlab2 c0 h0
    have hT : (toP "Total").isPrefixOf
        (pystrip (joinDots ((c :: cs) :: rest) ++ ' ' :: lab)) = false := by
      rw [hstrip, hs_eq]
      exact total_prefix_false (digit_ne hdig (by decide))
    have hdot_code : '.' ∈ joinDots ((c :: cs) :: rest) := by
      cases rest with
      | nil => exact absurd rfl hrest
      | cons u ts2 => exact joinDots_has_dot (c :: cs) u ts2
    have hdot_s : '.' ∈ c :: (x ++ ' ' :: lab) := by
      rw [hcode] at hdot_code
      rcases List.mem_cons.mp hdot_code with h | h
      · exact List.mem_cons.mpr (Or.inl h)
      · exact List.mem_cons.mpr (Or.inr (List.mem_append.mpr (Or.inl h)))
    have hN : numberedFlag
        (pystrip (joinDots ((c :: cs) :: rest) ++ ' ' :: lab)) = true := by
      rw [hstrip, hs_eq]
      simp only [numberedFlag, Bool.and_eq_true, hdig, true_and]
      simpa using hdot_s
    have hgc := gc_numbered_eq hT hN
    have hnospace : ' ' ∉ joinDots ((c :: cs) :: rest) :=
      joinDots_no_space (fun t ht => (hsegs t ht).2.2)
    have hsplit : splitLevelLabel (joinDots ((c :: cs) :: rest) ++ ' ' :: lab) =
        (joinDots ((c :: cs) :: rest), lab) := by
      unfold splitLevelLabel
      rw [pysplit1_append _ _ hnospace]
    have hdots : pystripDots (joinDots ((c :: cs) :: rest)) =
        joinDots ((c :: cs) :: rest) := by
      apply stripBy_noop
      · intro c0 h0
        rw [hcode] at h0
        simp only [List.head?_cons, Option.some.injEq] at h0
        subst h0
        simp [digit_ne hdig (show ('.').isDigit = false by decide)]
      · intro c0 h0
        have := joinDots_last_ne_dot ((c :: cs) :: rest)
          (fun t ht => ⟨(hsegs t ht).1, (hsegs t ht).2.1⟩) c0 h0
        simp [this]
    have hsplitOn : (joinDots ((c :: cs) :: rest)).splitOn '.' = (c :: cs) :: rest :=
      splitOn_joinDots (by simp) (fun t ht => (hsegs t ht).2.1)
    have hlabstrip : pystrip lab = lab := pystrip_noop hlab1 hlab2
    rw [hgc, hstrip, hsplit]
    refine ⟨?_, ?_, ?_, rfl⟩
    · show (pystripDots (joinDots ((c :: cs) :: rest))).splitOn '.' = (c :: cs) :: rest
      rw [hdots, hsplitOn]
    · show ((pystripDots (joinDots ((c :: cs) :: rest))).splitOn '.').length =
        ((c :: cs) :: rest).length
      rw [hdots, hsplitOn]
    · exact hlabstrip
  · intro s hs
    have hiff := gc_numbered_iff s
    rw [hs] at hiff
    rw [hiff]
    cases s with
    | nil => simp [numberedFlag]
    | cons c t =>
      simp only [numberedFlag, Bool.and_eq_true]
      constructor
      · rintro ⟨h1, h2⟩
        exact ⟨c, t, rfl, h1, by simpa using h2⟩
      · rintro ⟨c2, t2, heq, h1, h2⟩
        obtain ⟨rfl, rfl⟩ : c2 = c ∧ t2 = t := by
          constructor
          · exact ((List.cons.inj heq.symm).1)
          · exact ((List.cons.inj heq.symm).2)
        exact ⟨h1, by simpa using h2⟩

/-- Witness for C5 at the concrete string `"1.A.2.a Manufacturing
Industries"` (four segments) and the concrete strings `"1.A x"` and
`"1 Energy"` for the numbering criterion. -/
theorem C5_roundtrip_depth_witness :
    (get_category (joinDots [toP "1", toP "A", toP "2", toP "a"] ++
        ' ' :: toP "Manufacturing Industries")).levels.length = 4 ∧
    ((get_category (toP "1.A x")).is_numbered = true ↔
      ∃ c t, toP "1.A x" = c :: t ∧ c.isDigit = true ∧ '.' ∈ toP "1.A x") ∧
    ((get_category (toP "1 Energy")).is_numbered = true ↔
      ∃ c t, toP "1 Energy" = c :: t ∧ c.isDigit = true ∧ '.' ∈ toP "1 Energy") := by
  refine ⟨?_, C5_roundtrip_depth.2 (toP "1.A x") (by decide),
    C5_roundtrip_depth.2 (toP "1 Energy") (by decide)⟩
  have h := (C5_roundtrip_depth.1 '1' [] [toP "A", toP "2", toP "a"]
    (toP "Manufacturing Industries") (by decide) (by decide) (by decide)
    (by decide) (by decide) (by decide)).2.1
  simpa using h

/-! ## Header detection priority (claim C4) -/

theorem rowLoop_eq_any (anchor : Option PyStr) (keywords : Option (List PyStr)) :
    ∀ row : List Cell, rowLoop anchor keywords row = rowMatches anchor keywords row := by
  intro row
  induction row with
  | nil => rfl
  | cons cell rest ih =>
    cases cell with
    | none =>
      unfold rowLoop rowMatches
      rw [List.any_cons]
      simpa [rowMatches] using ih
    | some s =>
      unfold rowLoop rowMatches
      rw [List.any_cons]
      by_cases hA : anchorHit anchor (pylower s) = true
      · simp [hA]
      · by_cases hK : keywordHit keywords (pylower s) = true
        · simp [hA, hK]
        · simpa [hA, hK, rowMatches] using ih

theorem rowSearch_eq_findIdx (anchor : Option PyStr) (keywords : Option (List PyStr)) :
    ∀ (rows : List (List Cell)) (i : Nat),
      rowSearch anchor keywords i rows =
        rows.findIdx? (rowMatches anchor keywords) i := by
  intro rows
  induction rows with
  | nil =>
    intro i
    rw [List.findIdx?_nil]
    rfl
  | cons row rest ih =>
    intro i
    unfold rowSearch
    rw [List.findIdx?_cons, rowLoop_eq_any]
    by_cases h : rowMatches anchor keywords row = true
    · rw [if_pos h, if_pos h]
    · rw [if_neg h, if_neg h, ih]

/-- Counterexample to claim C4 as stated: with anchor `"GREENHOUSE"` and
keyword `"year"`, on a sheet whose row 0 contains only the keyword and
whose row 1 contains the anchor, `detect_header_rows` returns `[0, 1]` —
the keyword-only row wins over the later anchor row, because anchors and
keywords are tested in the same single pass rather than the keyword pass
being a fallback. -/
theorem C4_counterexample :
    rowAnchorMatch (toP "GREENHOUSE") [some (toP "Year 1990")] = false ∧
    rowAnchorMatch (toP "GREENHOUSE")
      [some (toP "GREENHOUSE GAS SOURCE AND SINK CATEGORIES")] = true ∧
    ∃ L, detect_header_rows
        [[some (toP "Year 1990")],
         [some (toP "GREENHOUSE GAS SOURCE AND SINK CATEGORIES")]]
        (some (toP "GREENHOUSE")) (some [toP "year"]) = .ok L ∧
      L = [0, 1] ∧ L ≠ [1, 2] :=
  ⟨by decide, by decide, [0, 1], rfl, rfl, by decide⟩

/-- Claim C4, amended: `detect_header_rows` scans the first `lookahead`
rows top-to-bottom cell-by-cell, case-insensitively, in a *single* pass
in which each non-NaN cell is tested first against the anchor and then
against the keywords; it returns `[i, i+1]` for the first row index `i`
any of whose cells contains the anchor substring *or* any keyword (so an
earlier keyword-only row beats a later anchor row), and raises when no
row in the window matches. -/
theorem C4_header_detection_amended (rows : List (List Cell))
    (anchor : Option PyStr) (keywords : Option (List PyStr)) (lookahead : Nat) :
    detect_header_rows rows anchor keywords lookahead =
      match (rows.take lookahead).findIdx? (rowMatches anchor keywords) with
      | some i => .ok [i, i + 1]
      | none => .error (toP "No header row detected with provided anchor or keywords.") := by
  unfold detect_header_rows
  dsimp only
  rw [rowSearch_eq_findIdx]

/-! ## Filename parsing (claim C9) -/

/-- Claim C9 (filename parsing): `extract_year_from_filename` splits the
extension-stripped basename on `-`; when at least 5 segments exist and
segment 4 (0-indexed) parses as a Python integer it returns
`(segment 0, int(segment 4))`, and otherwise — too few segments, or
`int` raising — the `try/except` catches, prints a warning, and the
null pair `(None, None)` is returned, never an exception (totality of
the Lean function models the absence of an uncaught exception). -/
theorem C9_filename_parsing (fn : PyStr) :
    extract_year_from_filename fn =
      (if 5 ≤ ((splitextRoot fn).splitOn '-').length ∧
          (pyInt (((splitextRoot fn).splitOn '-')[4]?.getD [])).isSome = true then
        (((splitextRoot fn).splitOn '-')[0]?,
          pyInt (((splitextRoot fn).splitOn '-')[4]?.getD []))
      else (none, none)) := by
  unfold extract_year_from_filename
  dsimp only
  by_cases h5 : 5 ≤ ((splitextRoot fn).splitOn '-').length
  · rw [if_pos h5]
    cases hy : pyInt (((splitextRoot fn).splitOn '-')[4]?.getD []) with
    | some y =>
      rw [if_pos (⟨h5, rfl⟩ : _ ∧ (some y).isSome = true)]
      have h0 : ((splitextRoot fn).splitOn '-')[0]? =
          some (((splitextRoot fn).splitOn '-')[0]?.getD []) := by
        cases hp : ((splitextRoot fn).splitOn '-')[0]? with
        | none =>
          rw [List.getElem?_eq_none_iff] at hp
          omega
        | some v => rfl
      rw [h0]
      rfl
    | none =>
      rw [if_neg (by rintro ⟨-, hc⟩; simp at hc)]
  · rw [if_neg h5, if_neg (by intro hc; exact h5 hc.1)]


/-! ## Pivot shape and duplicate policy (claim C7) -/

theorem head?_some_mem {α : Type} {l : List α} {a : α} (h : l.head? = some a) :
    a ∈ l := by
  cases l with
  | nil => cases h
  | cons b t =>
    rw [List.head?_cons, Option.some.injEq] at h
    subst h
    exact List.mem_cons_self _ _

theorem firstNonNull_isSome_iff (y : Int) (l : PyStr) (es : List GasEntry) :
    (firstNonNull y l es).isSome = true ↔
      ∃ e ∈ es, e.year = y ∧ e.label = l ∧ e.value.isSome = true := by
  unfold firstNonNull
  constructor
  · intro h
    obtain ⟨v, hv⟩ := Option.isSome_iff_exists.mp h
    have hmem := head?_some_mem hv
    obtain ⟨e, he, hval⟩ := List.mem_filterMap.mp hmem
    obtain ⟨hes, hpred⟩ := List.mem_filter.mp he
    simp only [Bool.and_eq_true, decide_eq_true_eq] at hpred
    exact ⟨e, hes, hpred.1, hpred.2, by rw [hval]; rfl⟩
  · rintro ⟨e, he, hy, hl, hv⟩
    obtain ⟨v, hv2⟩ := Option.isSome_iff_exists.mp hv
    have hef : e ∈ es.filter (fun e => e.year = y && e.label = l) :=
      List.mem_filter.mpr ⟨he, by simp [hy, hl]⟩
    have hvm : v ∈ (es.filter (fun e => e.year = y && e.label = l)).filterMap
        (fun e => e.value) := List.mem_filterMap.mpr ⟨e, hef, hv2⟩
    cases hfm : (es.filter (fun e => e.year = y && e.label = l)).filterMap
        (fun e => e.value) with
    | nil =>
      rw [hfm] at hvm
      cases hvm
    | cons a t => rfl

theorem mem_keptPairs_iff (es : List GasEntry) (y : Int) (l : PyStr) :
    (y, l) ∈ keptPairs es ↔
      ∃ e ∈ es, e.year = y ∧ e.label = l ∧ e.value.isSome = true := by
  unfold keptPairs
  rw [List.mem_filter]
  constructor
  · rintro ⟨_, hsome⟩
    exact (firstNonNull_isSome_iff y l es).mp (by simpa using hsome)
  · intro hex
    constructor
    · obtain ⟨e, he, hy, hl, _⟩ := hex
      rw [List.mem_dedup]
      exact List.mem_map.mpr ⟨e, he, by rw [hy, hl]⟩
    · simpa using (firstNonNull_isSome_iff y l es).mpr hex

theorem mem_insSortedBy {α : Type} [DecidableEq α] (lt : α → α → Bool) (y a : α) :
    ∀ l : List α, a ∈ insSortedBy lt y l ↔ a = y ∨ a ∈ l := by
  intro l
  induction l with
  | nil => simp [insSortedBy]
  | cons x xs ih =>
    unfold insSortedBy
    by_cases h1 : lt y x = true
    · simp [h1, List.mem_cons]
    · by_cases h2 : y = x
      · subst h2
        simp [h1, List.mem_cons]
      · simp [h1, h2, List.mem_cons, ih]
        tauto

theorem mem_sortDedupBy {α : Type} [DecidableEq α] (lt : α → α → Bool)
    (l : List α) (a : α) : a ∈ sortDedupBy lt l ↔ a ∈ l := by
  unfold sortDedupBy
  induction l with
  | nil => simp
  | cons x xs ih =>
    rw [List.foldr_cons, mem_insSortedBy, ih, List.mem_cons]

theorem insSortedBy_int_pairwise (y : Int) (l : List Int)
    (h : l.Pairwise (· < ·)) :
    (insSortedBy (fun a b : Int => a < b) y l).Pairwise (· < ·) := by
  induction l with
  | nil => simp [insSortedBy]
  | cons x xs ih =>
    rw [List.pairwise_cons] at h
    obtain ⟨hx, hxs⟩ := h
    unfold insSortedBy
    by_cases h1 : (fun a b : Int => decide (a < b)) y x = true
    · rw [if_pos h1]
      have hyx : y < x := by simpa using h1
      refine List.pairwise_cons.mpr ⟨?_, List.pairwise_cons.mpr ⟨hx, hxs⟩⟩
      intro b hb
      rcases List.mem_cons.mp hb with rfl | hb
      · exact hyx
      · exact lt_trans hyx (hx b hb)
    · rw [if_neg h1]
      by_cases h2 : y = x
      · rw [if_pos h2]
        exact List.pairwise_cons.mpr ⟨hx, hxs⟩
      · rw [if_neg h2]
        refine List.pairwise_cons.mpr ⟨?_, ih hxs⟩
        intro b hb
        rcases (mem_insSortedBy _ y b xs).mp hb with heq | hb
        · have hnyx : ¬ (y < x) := by simpa using h1
          rw [heq]
          omega
        · exact hx b hb

theorem sortDedupBy_int_pairwise (l : List Int) :
    (sortDedupBy (fun a b : Int => a < b) l).Pairwise (· < ·) := by
  unfold sortDedupBy
  induction l with
  | nil => simp
  | cons x xs ih => exact insSortedBy_int_pairwise x _ ih

theorem firstNonNull_eq_find (y : Int) (l : PyStr) : ∀ es : List GasEntry,
    firstNonNull y l es =
      (es.find? (fun e => e.year = y && e.label = l && e.value.isSome)).bind
        (fun e => e.value) := by
  intro es
  induction es with
  | nil => rfl
  | cons e rest ih =>
    unfold firstNonNull at ih ⊢
    rw [List.filter_cons]
    by_cases hm : (decide (e.year = y) && decide (e.label = l)) = true
    · rw [if_pos hm]
      cases hv : e.value with
      | some v =>
        rw [List.filterMap_cons, hv]
        rw [List.find?_cons_of_pos _ (by simp [hv]; simpa using hm)]
        simp [hv]
      | none =>
        rw [List.filterMap_cons, hv]
        rw [List.find?_cons_of_neg _ (by simp [hv])]
        exact ih
    · rw [if_neg hm]
      rw [List.find?_cons_of_neg _ (by simp; simp at hm; tauto)]
      exact ih

/-- Counterexample to claim C7 as stated: on `exampleGasEntries`, the
pivot index is `[2000]` even though year `2001` is present in the
partition (pandas `pivot_table` drops all-NaN groups before unstacking),
and the `(2000, "A")` cell is `5` — the first *non-null* value — even
though the first occurrence of that pair in table order carries NaN
(pandas `GroupBy.first` skips NA). -/
theorem C7_counterexample :
    (save_gas_pivot exampleGasEntries).index = [2000] ∧
    (2001 : Int) ∈ exampleGasEntries.map (fun e => e.year) ∧
    firstNonNull 2000 (toP "A") exampleGasEntries = some 5 ∧
    (exampleGasEntries.filter
        (fun e => e.year = 2000 && e.label = toP "A")).head? =
      some { year := 2000, label := toP "A", value := none } :=
  ⟨by decide, by decide, by decide, by decide⟩

/-- Claim C7, amended: for a level partition containing the requested
gas column, the pivot has exactly one row per distinct Year value
*having at least one non-null gas value* (all-NaN years are dropped),
rows sorted strictly ascending by Year; exactly one column per distinct
Label value having at least one non-null gas value; and each cell equals
the *first non-null* gas value, in table order, among that
`(Year, Label)` pair's rows (NaN when the pair has none). -/
theorem C7_pivot_shape_amended (es : List GasEntry) :
    (save_gas_pivot es).index.Pairwise (· < ·) ∧
    (∀ y : Int, y ∈ (save_gas_pivot es).index ↔
      ∃ e ∈ es, e.year = y ∧ e.value.isSome = true) ∧
    (∀ l : PyStr, l ∈ (save_gas_pivot es).columns ↔
      ∃ e ∈ es, e.label = l ∧ e.value.isSome = true) ∧
    (save_gas_pivot es).cells =
      (save_gas_pivot es).index.map (fun y =>
        (save_gas_pivot es).columns.map (fun l =>
          (es.find? (fun e => e.year = y && e.label = l && e.value.isSome)).bind
            (fun e => e.value))) := by
  refine ⟨sortDedupBy_int_pairwise _, ?_, ?_, ?_⟩
  · intro y
    unfold save_gas_pivot
    dsimp only
    rw [mem_sortDedupBy]
    constructor
    · intro h
      obtain ⟨p, hp, hfst⟩ := List.mem_map.mp h
      obtain ⟨py, pl⟩ := p
      simp only at hfst
      subst hfst
      obtain ⟨e, he, hy, hl, hv⟩ := (mem_keptPairs_iff es py pl).mp hp
      exact ⟨e, he, hy, hv⟩
    · rintro ⟨e, he, hy, hv⟩
      refine List.mem_map.mpr ⟨(y, e.label), ?_, rfl⟩
      exact (mem_keptPairs_iff es y e.label).mpr ⟨e, he, hy, rfl, hv⟩
  · intro l
    unfold save_gas_pivot
    dsimp only
    rw [mem_sortDedupBy]
    constructor
    · intro h
      obtain ⟨p, hp, hsnd⟩ := List.mem_map.mp h
      obtain ⟨py, pl⟩ := p
      simp only at hsnd
      subst hsnd
      obtain ⟨e, he, hy, hl, hv⟩ := (mem_keptPairs_iff es py pl).mp hp
      exact ⟨e, he, hl, hv⟩
    · rintro ⟨e, he, hl, hv⟩
      refine List.mem_map.mpr ⟨(e.year, l), ?_, rfl⟩
      exact (mem_keptPairs_iff es e.year l).mpr ⟨e, he, rfl, hl, hv⟩
  · unfold save_gas_pivot
    dsimp only
    simp only [firstNonNull_eq_find]

end GHG
